import Mathlib

/-!
Verification development for the xAnsi terminal-styling library.

JavaScript strings are modelled as lists of UTF-16 code units (`JStr`).
All scanners are embedded as total functions; loops whose index is mutated
inside the body are given fuel equal to the loop bound, which suffices
because every iteration advances the index by at least one (proved below).
-/

/-- A JavaScript string: its sequence of UTF-16 code units. -/
abbrev JStr := List Nat

/-- UTF-16 encoding of one Unicode scalar value. -/
def charUnits (c : Char) : List Nat :=
  if c.toNat < 65536 then [c.toNat]
  else [55296 + (c.toNat - 65536) / 1024, 56320 + (c.toNat - 65536) % 1024]

/-- UTF-16 code units of a string literal. -/
def utf16 (s : String) : JStr :=
  (s.data.map charUnits).flatten

/-- Code units allowed inside an SGR escape body: digits and semicolon
(the regex class `[0-9;]`). -/
def isCodeCharB (c : Nat) : Bool :=
  (48 ≤ c && c ≤ 57) || c = 59

/-- JavaScript line terminators, which the regex `.` does not match. -/
def isLineTermB (c : Nat) : Bool :=
  c = 10 || c = 13 || c = 8232 || c = 8233

/-- High surrogate code unit. -/
def isHighSurrB (c : Nat) : Bool :=
  55296 ≤ c && c ≤ 56319

/-- Low surrogate code unit. -/
def isLowSurrB (c : Nat) : Bool :=
  56320 ≤ c && c ≤ 57343

/-- Any surrogate code unit. -/
def isSurrB (c : Nat) : Bool :=
  isHighSurrB c || isLowSurrB c

/-- Greedy match of the SGR pattern `\x1b\[[0-9;]*m` at the head of the
input; returns the matched token and the remainder. -/
def matchSGR (l : JStr) : Option (JStr × JStr) :=
  match l with
  | a :: b :: rest =>
    if a = 27 ∧ b = 91 then
      match rest.dropWhile isCodeCharB with
      | 109 :: r3 => some (a :: b :: (rest.takeWhile isCodeCharB ++ [109]), r3)
      | _ => none
    else none
  | _ => none

/-- `Array.from` on a string: splits into Unicode characters, grouping a
high surrogate followed by a low surrogate into one element. -/
def arrayFrom : JStr → List JStr
  | [] => []
  | c :: rest =>
    match rest with
    | c2 :: r2 =>
      if isHighSurrB c && isLowSurrB c2 then [c, c2] :: arrayFrom r2
      else [c] :: arrayFrom (c2 :: r2)
    | [] => [[c]]

/-- Number of visible characters of a string, a surrogate pair counted
as one character. -/
def visibleCount (s : JStr) : Nat :=
  (arrayFrom s).length

/-- JavaScript `str.split(';')` (so the empty string yields `[""]`). -/
def splitSemi : JStr → List JStr
  | [] => [[]]
  | c :: rest =>
    if c = 59 then [] :: splitSemi rest
    else
      match splitSemi rest with
      | h :: t => (c :: h) :: t
      | [] => [[c]]

/-- JavaScript `parts.join(';')`. -/
def joinSemi (l : List JStr) : JStr :=
  List.intercalate [59] l

/-- Wrap a code string into a full escape token `\x1b[<k>m`. -/
def escTok (k : JStr) : JStr :=
  [27, 91] ++ k ++ [109]

/-- ANSI_RESET_MAP of the Map-based module: apply code to reset code;
`some none` models a `null` entry, absence models `undefined`. -/
def RESET_PAIRS1 : List (JStr × Option JStr) :=
  [ (utf16 "1", some (utf16 "22")), (utf16 "3", some (utf16 "23")),
    (utf16 "4", some (utf16 "24")), (utf16 "5", some (utf16 "25")),
    (utf16 "7", some (utf16 "27")), (utf16 "8", some (utf16 "28")),
    (utf16 "9", some (utf16 "29")),
    (utf16 "30", some (utf16 "39")), (utf16 "31", some (utf16 "39")),
    (utf16 "32", some (utf16 "39")), (utf16 "33", some (utf16 "39")),
    (utf16 "34", some (utf16 "39")), (utf16 "35", some (utf16 "39")),
    (utf16 "36", some (utf16 "39")), (utf16 "37", some (utf16 "39")),
    (utf16 "90", some (utf16 "39")), (utf16 "91", some (utf16 "39")),
    (utf16 "92", some (utf16 "39")), (utf16 "93", some (utf16 "39")),
    (utf16 "94", some (utf16 "39")), (utf16 "95", some (utf16 "39")),
    (utf16 "96", some (utf16 "39")), (utf16 "97", some (utf16 "39")),
    (utf16 "40", some (utf16 "49")), (utf16 "41", some (utf16 "49")),
    (utf16 "42", some (utf16 "49")), (utf16 "43", some (utf16 "49")),
    (utf16 "44", some (utf16 "49")), (utf16 "45", some (utf16 "49")),
    (utf16 "46", some (utf16 "49")), (utf16 "47", some (utf16 "49")),
    (utf16 "100", some (utf16 "49")), (utf16 "101", some (utf16 "49")),
    (utf16 "102", some (utf16 "49")), (utf16 "103", some (utf16 "49")),
    (utf16 "104", some (utf16 "49")), (utf16 "105", some (utf16 "49")),
    (utf16 "106", some (utf16 "49")), (utf16 "107", some (utf16 "49")),
    (utf16 "0", none), (utf16 "22", none), (utf16 "23", none),
    (utf16 "24", none), (utf16 "25", none), (utf16 "27", none),
    (utf16 "28", none), (utf16 "29", none), (utf16 "39", none),
    (utf16 "49", none) ]

/-- Lookup in ANSI_RESET_MAP of the Map-based module. -/
def resetMap1 (code : JStr) : Option (Option JStr) :=
  (RESET_PAIRS1.find? (fun p => p.1 = code)).map (fun p => p.2)

/-- The active-styles `Map<string, string>`: an insertion-ordered
association list with unique keys. -/
abbrev ActiveMap := List (JStr × JStr)

/-- Keys of the active map are pairwise distinct. -/
def keysNodup (a : ActiveMap) : Prop :=
  (a.map (fun p => p.1)).Nodup

instance (a : ActiveMap) : Decidable (keysNodup a) := by
  unfold keysNodup; infer_instance

/-- `Map.set`: update the value in place when the key is present,
otherwise append the binding. -/
def mapSet (a : ActiveMap) (k v : JStr) : ActiveMap :=
  if a.any (fun p => p.1 = k) then
    a.map (fun p => if p.1 = k then (k, v) else p)
  else a ++ [(k, v)]

/-- The Map variant's reset loop: delete the first binding whose key or
value equals `code` (the `for ... break` over the Map). -/
def deleteFirstMatch : ActiveMap → JStr → ActiveMap
  | [], _ => []
  | p :: rest, code =>
    if p.1 = code ∨ p.2 = code then rest
    else p :: deleteFirstMatch rest code

/-- The `Handle reset mappings` tail of processAnsiCode: full clear on
`0`, delete on another null-mapped code, set on a mapped style code. -/
def applyResetMap1 (code : JStr) (active : ActiveMap) : ActiveMap :=
  match resetMap1 code with
  | none => active
  | some none => if code = utf16 "0" then [] else deleteFirstMatch active code
  | some (some r) => mapSet active code r

/-- processAnsiCode of the Map-based module: handles truecolor
`38;2;r;g;b`, 256-color `38;5;n`, and the static reset map; returns the
new loop index and the updated active map. -/
def processAnsiCode (code : JStr) (index : Nat) (codes : List JStr) (active : ActiveMap) :
    Nat × ActiveMap :=
  let next := codes[index + 1]?
  let afterNext := codes[index + 2]?
  let resetCode : Option JStr :=
    if code = utf16 "38" then some (utf16 "39")
    else if code = utf16 "48" then some (utf16 "49")
    else none
  match resetCode with
  | some rc =>
    let rgb := (codes.drop (index + 2)).take 3
    if next = some (utf16 "2") ∧ rgb.length = 3 then
      (index + 4, mapSet active (code ++ utf16 ";2;" ++ joinSemi rgb) rc)
    else if next = some (utf16 "5") ∧ afterNext.isSome then
      (index + 2, mapSet active (code ++ utf16 ";5;" ++ afterNext.getD []) rc)
    else (index, applyResetMap1 code active)
  | none => (index, applyResetMap1 code active)

/-- The `for (let i = 0; i < codes.length; i++) i = processAnsiCode(...)`
loop, with fuel; `codes.length` fuel suffices since the returned index
never decreases. -/
def processCodesMapF : Nat → List JStr → Nat → ActiveMap → ActiveMap
  | 0, _, _, active => active
  | fuel + 1, codes, i, active =>
    if i < codes.length then
      let p := processAnsiCode (codes.getD i []) i codes active
      processCodesMapF fuel codes (p.1 + 1) p.2
    else active

/-- Process all codes of one escape token against the active map. -/
def processCodesMap (codes : List JStr) (active : ActiveMap) : ActiveMap :=
  processCodesMapF codes.length codes 0 active

/-- Worker for first-occurrence deduplication. -/
def firstDedupGo : List JStr → List JStr → List JStr
  | [], _ => []
  | x :: xs, seen =>
    if x ∈ seen then firstDedupGo xs seen
    else x :: firstDedupGo xs (x :: seen)

/-- `[...new Set(l)]`: deduplication keeping first occurrences in order. -/
def firstDedup (l : List JStr) : List JStr :=
  firstDedupGo l []

/-- Per-character style application of the Map variant:
`[...active.keys()].map(k => esc(k)).join('')`. -/
def activePre (a : ActiveMap) : JStr :=
  ((a.map (fun p => p.1)).map escTok).flatten

/-- Per-character reset of the Map variant:
`[...new Set(active.values())].map(k => esc(k)).join('')`. -/
def activeSuf (a : ActiveMap) : JStr :=
  ((firstDedup (a.map (fun p => p.2))).map escTok).flatten

/-- Tokenization of the Map variant: global match of `SGR|.`, with fuel.
Unmatched code units (line terminators, which `.` skips) are dropped. -/
def tokenizeMapF : Nat → JStr → List JStr
  | 0, _ => []
  | _ + 1, [] => []
  | fuel + 1, c :: rest =>
    match matchSGR (c :: rest) with
    | some (tok, r) => tok :: tokenizeMapF fuel r
    | none =>
      if isLineTermB c then tokenizeMapF fuel rest
      else [c] :: tokenizeMapF fuel rest

/-- `str.match(/\x1b\[[0-9;]*m|./g) || []` of the Map variant. -/
def tokenizeMap (s : JStr) : List JStr :=
  tokenizeMapF s.length s

/-- Token loop of the Map-based splitWithAnsiContext. -/
def splitMapGo : List JStr → ActiveMap → List JStr
  | [], _ => []
  | tok :: rest, active =>
    if tok.take 2 = [27, 91] then
      splitMapGo rest (processCodesMap (splitSemi ((tok.drop 2).dropLast)) active)
    else
      (activePre active ++ tok ++ activeSuf active) :: splitMapGo rest active

/-- splitWithAnsiContext, Map-based variant. -/
def splitWithAnsiContextMap (s : JStr) : List JStr :=
  splitMapGo (tokenizeMap s) []

/-- ANSI_RESET_MAP of the array-based module: like the Map-based table
but with additional entries for `2`, `38` and `48`. -/
def RESET_PAIRS2 : List (JStr × Option JStr) :=
  [ (utf16 "1", some (utf16 "22")), (utf16 "2", some (utf16 "22")),
    (utf16 "3", some (utf16 "23")), (utf16 "4", some (utf16 "24")),
    (utf16 "5", some (utf16 "25")), (utf16 "7", some (utf16 "27")),
    (utf16 "8", some (utf16 "28")), (utf16 "9", some (utf16 "29")),
    (utf16 "30", some (utf16 "39")), (utf16 "31", some (utf16 "39")),
    (utf16 "32", some (utf16 "39")), (utf16 "33", some (utf16 "39")),
    (utf16 "34", some (utf16 "39")), (utf16 "35", some (utf16 "39")),
    (utf16 "36", some (utf16 "39")), (utf16 "37", some (utf16 "39")),
    (utf16 "38", some (utf16 "39")),
    (utf16 "90", some (utf16 "39")), (utf16 "91", some (utf16 "39")),
    (utf16 "92", some (utf16 "39")), (utf16 "93", some (utf16 "39")),
    (utf16 "94", some (utf16 "39")), (utf16 "95", some (utf16 "39")),
    (utf16 "96", some (utf16 "39")), (utf16 "97", some (utf16 "39")),
    (utf16 "40", some (utf16 "49")), (utf16 "41", some (utf16 "49")),
    (utf16 "42", some (utf16 "49")), (utf16 "43", some (utf16 "49")),
    (utf16 "44", some (utf16 "49")), (utf16 "45", some (utf16 "49")),
    (utf16 "46", some (utf16 "49")), (utf16 "47", some (utf16 "49")),
    (utf16 "48", some (utf16 "49")),
    (utf16 "100", some (utf16 "49")), (utf16 "101", some (utf16 "49")),
    (utf16 "102", some (utf16 "49")), (utf16 "103", some (utf16 "49")),
    (utf16 "104", some (utf16 "49")), (utf16 "105", some (utf16 "49")),
    (utf16 "106", some (utf16 "49")), (utf16 "107", some (utf16 "49")),
    (utf16 "0", none), (utf16 "22", none), (utf16 "23", none),
    (utf16 "24", none), (utf16 "25", none), (utf16 "27", none),
    (utf16 "28", none), (utf16 "29", none), (utf16 "39", none),
    (utf16 "49", none) ]

/-- Lookup in ANSI_RESET_MAP of the array-based module. -/
def resetMap2 (code : JStr) : Option (Option JStr) :=
  (RESET_PAIRS2.find? (fun p => p.1 = code)).map (fun p => p.2)

/-- Scanner state of the array-based splitWithAnsiContext: the parallel
code and reset arrays, the pending one-time passthrough, and the cached
prefix and suffix escape strings. -/
structure ArrSt where
  preArr : List JStr
  sufArr : List JStr
  oneTime : JStr
  curPre : JStr
  curSuf : JStr

/-- Initial scanner state: everything empty. -/
def arrInit : ArrSt :=
  { preArr := [], sufArr := [], oneTime := [], curPre := [], curSuf := [] }

/-- `codeSeq.indexOf(';')`-based leading code extraction of the array
variant. -/
def headCode (codeSeq : JStr) : JStr :=
  codeSeq.takeWhile (fun c => c != 59)

/-- Shared tail of the array variant's token handling: pop when the code
sequence equals the last pushed reset, else record the token for one-time
passthrough. -/
def arrPopOrPass (tok codeSeq : JStr) (st : ArrSt) : ArrSt :=
  if st.sufArr.getLast? = some codeSeq then
    let p := st.preArr.dropLast
    let sfx := st.sufArr.dropLast
    { st with
      preArr := p
      sufArr := sfx
      curPre := if p ≠ [] then escTok (joinSemi p) else []
      curSuf := if sfx ≠ [] then escTok (joinSemi sfx) else [] }
  else { st with oneTime := st.oneTime ++ tok }

/-- Escape-token handling of the array-based splitWithAnsiContext: full
reset on leading `0`, push of the whole code sequence on a known code,
pop on a matching reset, one-time passthrough otherwise. -/
def arrProcessTok (tok : JStr) (st : ArrSt) : ArrSt :=
  let codeSeq := (tok.drop 2).dropLast
  let code := headCode codeSeq
  if code = utf16 "0" then
    { preArr := []
      sufArr := []
      oneTime := st.oneTime ++ tok
      curPre := []
      curSuf := [] }
  else
    match resetMap2 code with
    | some (some rc) =>
      if st.preArr.getLast? ≠ some codeSeq then
        let p := st.preArr ++ [codeSeq]
        let sfx := st.sufArr ++ [rc]
        { st with
          preArr := p
          sufArr := sfx
          curPre := escTok (joinSemi p)
          curSuf := escTok (joinSemi sfx) }
      else arrPopOrPass tok codeSeq st
    | _ => arrPopOrPass tok codeSeq st

/-- Clear the one-time passthrough after it has decorated one character. -/
def resetOT (st : ArrSt) : ArrSt :=
  { st with oneTime := [] }

/-- Scanner loop of the array-based splitWithAnsiContext, with fuel:
alternates between escape tokens and visible characters (surrogate pairs
grouped as by `Array.from`). -/
def arrGoF : Nat → JStr → ArrSt → List JStr
  | 0, _, _ => []
  | _ + 1, [], _ => []
  | fuel + 1, c :: rest, st =>
    match matchSGR (c :: rest) with
    | some (tok, r) => arrGoF fuel r (arrProcessTok tok st)
    | none =>
      match rest with
      | c2 :: r2 =>
        if isHighSurrB c && isLowSurrB c2 then
          (st.oneTime ++ st.curPre ++ [c, c2] ++ st.curSuf) :: arrGoF fuel r2 (resetOT st)
        else
          (st.oneTime ++ st.curPre ++ [c] ++ st.curSuf) :: arrGoF fuel (c2 :: r2) (resetOT st)
      | [] => [st.oneTime ++ st.curPre ++ [c] ++ st.curSuf]

/-- Run the array-variant scanner from an arbitrary state. -/
def arrGo (s : JStr) (st : ArrSt) : List JStr :=
  arrGoF s.length s st

/-- splitWithAnsiContext, array-based variant (`!str` yields `['']`). -/
def splitWithAnsiContextArray (s : JStr) : List JStr :=
  if s = [] then [[]] else arrGo s arrInit

/-- The visible characters the array-variant scanner walks over, with
fuel (same scan, styling state ignored). -/
def visibleCharsF : Nat → JStr → List JStr
  | 0, _ => []
  | _ + 1, [] => []
  | fuel + 1, c :: rest =>
    match matchSGR (c :: rest) with
    | some (_, r) => visibleCharsF fuel r
    | none =>
      match rest with
      | c2 :: r2 =>
        if isHighSurrB c && isLowSurrB c2 then [c, c2] :: visibleCharsF fuel r2
        else [c] :: visibleCharsF fuel (c2 :: r2)
      | [] => [[c]]

/-- All visible characters of a string under the SGR scan. -/
def visibleChars (s : JStr) : List JStr :=
  visibleCharsF s.length s

/-- A style code pair: apply code and reset code, both in their string
form as interpolated into the escape sequence. -/
abbrev StyleCode := JStr × JStr

/-- wrapWithAnsi: returns the text untouched when the process-wide
NO_COLOR flag is truthy or no codes are given; a single code is wrapped
directly; several codes emit apply tokens in order before the text and
reset tokens in reverse order after it. -/
def wrapWithAnsi (noColor : Bool) (codes : List StyleCode) (text : JStr) : JStr :=
  if noColor then text
  else
    match codes with
    | [] => text
    | [c] => escTok c.1 ++ text ++ escTok c.2
    | _ =>
      (codes.map (fun c => escTok c.1)).flatten ++ text ++
        ((codes.map (fun c => escTok c.2)).reverse).flatten

/-- Apply token of one style code. -/
def startTok (c : StyleCode) : JStr :=
  escTok c.1

/-- The endCodes array built by the loop `endCodes[len - i - 1] := reset
of codes[i]`: the reversed list of reset tokens. -/
def endTokens (codes : List StyleCode) : List JStr :=
  (codes.map (fun c => escTok c.2)).reverse

/-- The general multi-code wrapping formula: apply tokens in list order,
text, reset tokens in reversed list order. -/
def wrapGeneral (codes : List StyleCode) (text : JStr) : JStr :=
  (codes.map startTok).flatten ++ text ++ (endTokens codes).flatten

/-- JavaScript `args.join(' ')` used by the chain formatter. -/
def joinSpace (args : List JStr) : JStr :=
  List.intercalate [32] args

/-- The xterm chain formatter applied to plain arguments: joins them
with spaces and wraps with the accumulated codes. -/
def xtermFormat (noColor : Bool) (codes : List StyleCode) (args : List JStr) : JStr :=
  wrapWithAnsi noColor codes (joinSpace args)

/-- Foreground or background color target of rgbCode. -/
inductive ColorTarget where
  | fg
  | bg

/-- A dynamically typed JavaScript value, as far as `typeof` checks in
the color helpers observe it. -/
inductive JSVal where
  | num (n : Nat)
  | str (s : JStr)
  | boolean (b : Bool)
  | undef

/-- The `typeof` string of a value. -/
def typeofName : JSVal → JStr
  | .num _ => utf16 "number"
  | .str _ => utf16 "string"
  | .boolean _ => utf16 "boolean"
  | .undef => utf16 "undefined"

/-- Whether `typeof v` is `number`. -/
def isNumB : JSVal → Bool
  | .num _ => true
  | _ => false

/-- Decimal rendering of a number as interpolated into a template. -/
def decStr (n : Nat) : JStr :=
  (Nat.toDigits 10 n).map Char.toNat

/-- rgbCode: validates that all three components are numbers (else a
descriptive error) and builds the `38;2;r;g;b` / `48;2;r;g;b` pair with
reset `39` / `49`. -/
def rgbCode (t : ColorTarget) (r g b : JSVal) : Except JStr StyleCode :=
  match r, g, b with
  | .num rn, .num gn, .num bn =>
    let code := match t with | .fg => utf16 "38" | .bg => utf16 "48"
    let reset := match t with | .fg => utf16 "39" | .bg => utf16 "49"
    .ok (code ++ utf16 ";2;" ++ decStr rn ++ utf16 ";" ++ decStr gn ++
      utf16 ";" ++ decStr bn, reset)
  | _, _, _ =>
    .error (utf16 "RGB values must be numbers, received: r=" ++ typeofName r ++
      utf16 ", g=" ++ typeofName g ++ utf16 ", b=" ++ typeofName b)

/-- `hex.replace(/^#/, '')`: strip one optional leading `#`. -/
def stripHash (hex : JStr) : JStr :=
  match hex with
  | c :: rest => if c = 35 then rest else c :: rest
  | [] => []

/-- ASCII lowering of one code unit (the `toLowerCase` step, restricted
to the ASCII range, which is all the hex validation can observe). -/
def lowerUnit (c : Nat) : Nat :=
  if 65 ≤ c ∧ c ≤ 90 then c + 32 else c

/-- `toLowerCase` over the code units. -/
def lowerAscii (s : JStr) : JStr :=
  s.map lowerUnit

/-- One unit of the regex class `[0-9A-Fa-f]`. -/
def isHexDigitB (c : Nat) : Bool :=
  (48 ≤ c && c ≤ 57) || (97 ≤ c && c ≤ 102) || (65 ≤ c && c ≤ 70)

/-- The regex `^([0-9A-Fa-f]{3}|[0-9A-Fa-f]{6})$`. -/
def validHexB (s : JStr) : Bool :=
  s.all isHexDigitB && (s.length = 3 || s.length = 6)

/-- Value of one hex digit unit. -/
def hexVal (c : Nat) : Nat :=
  if 48 ≤ c ∧ c ≤ 57 then c - 48
  else if 97 ≤ c ∧ c ≤ 102 then c - 87
  else if 65 ≤ c ∧ c ≤ 70 then c - 55
  else 0

/-- `parseInt(s, 16)` on an already validated hex string. -/
def parseHexStr (s : JStr) : Nat :=
  s.foldl (fun acc c => 16 * acc + hexVal c) 0

/-- hexToRgb: strips an optional `#`, lowercases, validates 3 or 6 hex
digits (else a descriptive error), duplicates each digit of a 3-digit
color and parses the three channel bytes. -/
def hexToRgb (hex : JStr) : Except JStr (Nat × Nat × Nat) :=
  let cleanHex := lowerAscii (stripHash hex)
  if validHexB cleanHex then
    if cleanHex.length = 3 then
      .ok (parseHexStr [cleanHex.getD 0 0, cleanHex.getD 0 0],
        parseHexStr [cleanHex.getD 1 0, cleanHex.getD 1 0],
        parseHexStr [cleanHex.getD 2 0, cleanHex.getD 2 0])
    else
      .ok (parseHexStr ((cleanHex.drop 0).take 2),
        parseHexStr ((cleanHex.drop 2).take 2),
        parseHexStr ((cleanHex.drop 4).take 2))
  else
    .error (utf16 "Invalid hex color format: \"" ++ hex ++
      utf16 "\". Expected 3 or 6 hex digits.")

/-- Modelled from the spec: the ShadowRenderer.scroll setter
(shadow.service.ts itself is not among the sources; only its test file
is). Per spec sections 4.2 and 9 and the README, a non-negative value is
an absolute target and a negative value is a relative delta from the
current offset, and the result is clamped; the clamp's upper bound is
the one pinned by the repository's tests in shadow-service.spec.ts,
namely contentRows - 1. -/
def scrollSet (contentRows height cur : Nat) (v : Int) : Nat :=
  let maxScroll := contentRows - 1
  if 0 ≤ v then min v.toNat maxScroll
  else min (((cur : Int) + v).toNat) maxScroll

/-! Helper lemmas. -/

lemma matchSGR_cons_none (c : Nat) (rest : JStr) (h : c ≠ 27) :
    matchSGR (c :: rest) = none := by
  cases rest with
  | nil => rfl
  | cons b r =>
    simp only [matchSGR]
    rw [if_neg (fun h2 => h h2.1)]

lemma matchSGR_eq_some {l tok r : JStr} (h : matchSGR l = some (tok, r)) :
    l = tok ++ r ∧ r.length + 3 ≤ l.length := by
  match l with
  | [] => simp [matchSGR] at h
  | [a] => simp [matchSGR] at h
  | a :: b :: rest =>
    simp only [matchSGR] at h
    split at h
    · split at h
      · rename_i hd
        injection h with h1
        injection h1 with htok hr
        subst htok; subst hr
        have hsplit : rest.takeWhile isCodeCharB ++ rest.dropWhile isCodeCharB = rest :=
          List.takeWhile_append_dropWhile isCodeCharB rest
        rw [hd] at hsplit
        constructor
        · simp only [List.cons_append, List.append_assoc, List.singleton_append,
            List.nil_append]
          exact congrArg (fun x => a :: b :: x) hsplit.symm
        · have := congrArg List.length hsplit
          simp only [List.length_append, List.length_cons] at this ⊢
          omega
      · exact absurd h (by simp)
    · exact absurd h (by simp)

lemma processAnsiCode_fst_ge (code : JStr) (i : Nat) (codes : List JStr) (a : ActiveMap) :
    i ≤ (processAnsiCode code i codes a).1 := by
  simp only [processAnsiCode]
  repeat' split
  all_goals dsimp only
  all_goals omega

lemma arrayFrom_flatten (s : JStr) : (arrayFrom s).flatten = s := by
  induction s using arrayFrom.induct with
  | case1 => rfl
  | case2 c c2 r2 _ ih => simp [arrayFrom, *]
  | case3 c c2 r2 _ ih => simp [arrayFrom, *]
  | case4 c => simp [arrayFrom]

lemma arrayFrom_no_high (s : JStr) (h : ∀ c ∈ s, isHighSurrB c = false) :
    arrayFrom s = s.map (fun c => [c]) := by
  induction s using arrayFrom.induct with
  | case1 => rfl
  | case2 c c2 r2 hp ih =>
    have := h c (by simp)
    rw [this] at hp
    simp at hp
  | case3 c c2 r2 _ ih =>
    simp only [arrayFrom]
    split
    · rename_i hp
      rw [h c (by simp)] at hp
      simp at hp
    · simp only [List.map_cons, List.cons.injEq, true_and]
      exact ih (fun x hx => h x (by simp [hx]))
  | case4 c => simp [arrayFrom]

lemma tokenizeMapF_plain (fuel : Nat) :
    ∀ s : JStr, s.length ≤ fuel → 27 ∉ s → (∀ c ∈ s, isLineTermB c = false) →
      tokenizeMapF fuel s = s.map (fun c => [c]) := by
  induction fuel with
  | zero =>
    intro s hlen _ _
    have : s = [] := List.eq_nil_of_length_eq_zero (Nat.le_zero.mp hlen)
    subst this; rfl
  | succ f ih =>
    intro s hlen hesc hlt
    cases s with
    | nil => rfl
    | cons c rest =>
      have hc : c ≠ 27 := fun h => hesc (h ▸ List.mem_cons_self c rest)
      simp only [tokenizeMapF, matchSGR_cons_none c rest hc]
      rw [hlt c (List.mem_cons_self c rest)]
      simp only [Bool.false_eq_true, if_false, List.map_cons, List.cons.injEq, true_and]
      exact ih rest (by simpa using Nat.le_of_succ_le_succ (by simpa using hlen))
        (fun h => hesc (List.mem_cons_of_mem c h))
        (fun x hx => hlt x (List.mem_cons_of_mem c hx))

lemma activePre_nil : activePre [] = [] := rfl

lemma activeSuf_nil : activeSuf [] = [] := rfl

lemma splitMapGo_singletons (s : JStr) :
    splitMapGo (s.map (fun c => [c])) [] = s.map (fun c => [c]) := by
  induction s with
  | nil => rfl
  | cons c rest ih =>
    simp only [List.map_cons, splitMapGo]
    have h2 : List.take 2 [c] ≠ [27, 91] := by
      intro h
      have := congrArg List.length h
      simp at this
    rw [if_neg h2]
    simp only [activePre_nil, activeSuf_nil, List.nil_append, List.append_nil]
    simpa using ih

lemma splitMapGo_length (toks : List JStr) :
    ∀ a : ActiveMap, (splitMapGo toks a).length =
      toks.countP (fun t => decide (¬ t.take 2 = [27, 91])) := by
  induction toks with
  | nil => intro a; rfl
  | cons tok rest ih =>
    intro a
    simp only [splitMapGo]
    by_cases h : tok.take 2 = [27, 91]
    · rw [if_pos h]
      rw [ih]
      simp [List.countP_cons, h]
    · rw [if_neg h]
      simp only [List.length_cons]
      rw [ih]
      simp [List.countP_cons, h]

lemma arrInit_resetOT : resetOT arrInit = arrInit := rfl

lemma arrGoF_plain (fuel : Nat) :
    ∀ s : JStr, s.length ≤ fuel → 27 ∉ s →
      arrGoF fuel s arrInit = arrayFrom s := by
  induction fuel with
  | zero =>
    intro s hlen _
    have : s = [] := List.eq_nil_of_length_eq_zero (Nat.le_zero.mp hlen)
    subst this; rfl
  | succ f ih =>
    intro s hlen hesc
    cases s with
    | nil => rfl
    | cons c rest =>
      have hc : c ≠ 27 := fun h => hesc (h ▸ List.mem_cons_self c rest)
      simp only [arrGoF, matchSGR_cons_none c rest hc]
      cases rest with
      | nil => simp [arrayFrom, arrInit]
      | cons c2 r2 =>
        have hlen2 : r2.length ≤ f := by simp at hlen; omega
        have hlen1 : (c2 :: r2).length ≤ f := by simp at hlen ⊢; omega
        dsimp only
        by_cases hp : isHighSurrB c && isLowSurrB c2
        · rw [if_pos hp]
          simp only [arrayFrom, hp, if_true, arrInit_resetOT]
          simp only [arrInit, List.nil_append, List.append_nil]
          exact congrArg (fun l => [c, c2] :: l) (ih r2 hlen2 (fun h => hesc (by simp [h])))
        · rw [if_neg hp]
          simp only [arrayFrom, hp, if_false, arrInit_resetOT]
          simp only [arrInit, List.nil_append, List.append_nil]
          exact congrArg (fun l => [c] :: l)
            (ih (c2 :: r2) hlen1 (fun h => hesc (by simp at h; simp [h])))

lemma arrGoF_length (fuel : Nat) :
    ∀ (s : JStr) (st : ArrSt),
      (arrGoF fuel s st).length = (visibleCharsF fuel s).length := by
  induction fuel with
  | zero => intro s st; rfl
  | succ f ih =>
    intro s st
    cases s with
    | nil => rfl
    | cons c rest =>
      simp only [arrGoF, visibleCharsF]
      cases hm : matchSGR (c :: rest) with
      | some p =>
        cases p with
        | mk tok r => exact ih r (arrProcessTok tok st)
      | none =>
        cases rest with
        | nil => rfl
        | cons c2 r2 =>
          dsimp only
          by_cases hp : isHighSurrB c && isLowSurrB c2
          · rw [if_pos hp, if_pos hp]
            simp only [List.length_cons]
            rw [ih]
          · rw [if_neg hp, if_neg hp]
            simp only [List.length_cons]
            rw [ih]

lemma modifyHead_nil_append (l : List JStr) :
    l.modifyHead (fun ch => [] ++ ch) = l := by
  cases l <;> simp

lemma arrGoF_after_clear (fuel : Nat) :
    ∀ (t : JStr) (st : ArrSt), t.length ≤ fuel → 27 ∉ t →
      st.curPre = [] → st.curSuf = [] →
      arrGoF fuel t st = (arrayFrom t).modifyHead (fun ch => st.oneTime ++ ch) := by
  induction fuel with
  | zero =>
    intro t st hlen _ _ _
    have : t = [] := List.eq_nil_of_length_eq_zero (Nat.le_zero.mp hlen)
    subst this; rfl
  | succ f ih =>
    intro t st hlen hesc hpre hsuf
    cases t with
    | nil => rfl
    | cons c rest =>
      have hc : c ≠ 27 := fun h => hesc (h ▸ List.mem_cons_self c rest)
      simp only [arrGoF, matchSGR_cons_none c rest hc]
      cases rest with
      | nil => simp [arrayFrom, hpre, hsuf]
      | cons c2 r2 =>
        have hlen2 : r2.length ≤ f := by simp at hlen; omega
        have hlen1 : (c2 :: r2).length ≤ f := by simp at hlen ⊢; omega
        dsimp only
        by_cases hp : isHighSurrB c && isLowSurrB c2
        · rw [if_pos hp]
          have ht := ih r2 (resetOT st) hlen2 (fun h => hesc (by simp [h]))
            (by simp [resetOT, hpre]) (by simp [resetOT, hsuf])
          rw [ht]
          simp only [arrayFrom, hp, if_true, resetOT, List.modifyHead_cons, hpre, hsuf]
          simp only [List.nil_append, List.append_nil]
          cases arrayFrom r2 <;> rfl
        · rw [if_neg hp]
          have ht := ih (c2 :: r2) (resetOT st) hlen1 (fun h => hesc (by simp at h; simp [h]))
            (by simp [resetOT, hpre]) (by simp [resetOT, hsuf])
          rw [ht]
          simp only [arrayFrom, hp, if_false, resetOT, List.modifyHead_cons, hpre, hsuf]
          simp only [List.nil_append, List.append_nil]
          cases arrayFrom (c2 :: r2) <;> rfl

lemma matchSGR_tok0 (t : JStr) :
    matchSGR (27 :: 91 :: 48 :: 109 :: t) = some ([27, 91, 48, 109], t) := rfl

lemma utf16_tok0 : utf16 "\x1b[0m" = [27, 91, 48, 109] := rfl

lemma processAnsiCode_zero (i : Nat) (codes : List JStr) (a : ActiveMap) :
    processAnsiCode (utf16 "0") i codes a = (i, []) := rfl

lemma processCodesMap_zero (a : ActiveMap) :
    processCodesMap [[48]] a = [] := rfl

lemma flatten_singletons (s : JStr) : (s.map (fun c => [c])).flatten = s := by
  induction s with
  | nil => rfl
  | cons c rest ih => simp [ih]

lemma keysNodup_nil : keysNodup [] := List.nodup_nil

lemma keysNodup_mapSet {a : ActiveMap} (k v : JStr) (h : keysNodup a) :
    keysNodup (mapSet a k v) := by
  unfold mapSet
  by_cases hp : a.any (fun p => p.1 = k)
  · rw [if_pos hp]
    unfold keysNodup at h ⊢
    have : (a.map (fun p => if p.1 = k then (k, v) else p)).map (fun p => p.1) =
        a.map (fun p => p.1) := by
      rw [List.map_map]
      apply List.map_congr_left
      intro p _
      by_cases hk : p.1 = k
      · simp [Function.comp, hk]
      · simp [Function.comp, hk]
    rw [this]
    exact h
  · rw [if_neg hp]
    unfold keysNodup at h ⊢
    rw [List.map_append]
    rw [List.nodup_append]
    refine ⟨h, List.nodup_singleton k, ?_⟩
    intro x hx hk
    simp only [List.map_cons, List.map_nil, List.mem_singleton] at hk
    subst hk
    apply hp
    rw [List.any_eq_true]
    obtain ⟨p, hpmem, hpk⟩ := List.mem_map.mp hx
    exact ⟨p, hpmem, by simp [hpk]⟩

lemma deleteFirstMatch_sublist (a : ActiveMap) (code : JStr) :
    List.Sublist (deleteFirstMatch a code) a := by
  induction a with
  | nil => simp [deleteFirstMatch]
  | cons p rest ih =>
    unfold deleteFirstMatch
    by_cases h : p.1 = code ∨ p.2 = code
    · rw [if_pos h]
      exact List.sublist_cons_self p rest
    · rw [if_neg h]
      exact ih.cons₂ p

lemma keysNodup_delete {a : ActiveMap} (code : JStr) (h : keysNodup a) :
    keysNodup (deleteFirstMatch a code) := by
  unfold keysNodup at h ⊢
  exact ((deleteFirstMatch_sublist a code).map (fun p => p.1)).nodup h

lemma keysNodup_applyResetMap1 {a : ActiveMap} (code : JStr) (h : keysNodup a) :
    keysNodup (applyResetMap1 code a) := by
  unfold applyResetMap1
  rcases resetMap1 code with _ | (_ | r)
  · exact h
  · by_cases h0 : code = utf16 "0"
    · rw [if_pos h0]; exact keysNodup_nil
    · rw [if_neg h0]; exact keysNodup_delete code h
  · exact keysNodup_mapSet code r h

lemma keysNodup_processAnsiCode (code : JStr) (i : Nat) (codes : List JStr)
    {a : ActiveMap} (h : keysNodup a) :
    keysNodup (processAnsiCode code i codes a).2 := by
  simp only [processAnsiCode]
  repeat' split
  all_goals dsimp only
  all_goals first
  | exact keysNodup_mapSet _ _ h
  | exact keysNodup_applyResetMap1 _ h

lemma keysNodup_processCodesMapF (fuel : Nat) :
    ∀ (codes : List JStr) (i : Nat) {a : ActiveMap}, keysNodup a →
      keysNodup (processCodesMapF fuel codes i a) := by
  induction fuel with
  | zero => intro codes i a h; exact h
  | succ f ih =>
    intro codes i a h
    simp only [processCodesMapF]
    by_cases hi : i < codes.length
    · rw [if_pos hi]
      exact ih codes _ (keysNodup_processAnsiCode _ i codes h)
    · rw [if_neg hi]
      exact h

lemma entry_unique {a : ActiveMap} (h : keysNodup a) {k v : JStr} {p : JStr × JStr}
    (hkv : (k, v) ∈ a) (hp : p ∈ a) (hk : p.1 = k) : p = (k, v) := by
  induction a with
  | nil => simp at hkv
  | cons q rest ih =>
    unfold keysNodup at h
    simp only [List.map_cons, List.nodup_cons] at h
    obtain ⟨hq, hrest⟩ := h
    rcases List.mem_cons.mp hkv with hkv1 | hkv2
    · rcases List.mem_cons.mp hp with hp1 | hp2
      · rw [hp1, hkv1]
      · exfalso
        apply hq
        rw [List.mem_map]
        exact ⟨p, hp2, by rw [hk, ← hkv1]⟩
    · rcases List.mem_cons.mp hp with hp1 | hp2
      · exfalso
        apply hq
        rw [List.mem_map]
        refine ⟨(k, v), hkv2, ?_⟩
        simp [← hp1, hk]
      · exact ih hrest hkv2 hp2

lemma mapSet_mem_self {a : ActiveMap} {k v : JStr} (h : keysNodup a)
    (hm : (k, v) ∈ a) : mapSet a k v = a := by
  unfold mapSet
  rw [if_pos (List.any_eq_true.mpr ⟨(k, v), hm, by simp⟩)]
  conv_rhs => rw [← List.map_id a]
  apply List.map_congr_left
  intro p hp
  by_cases hk : p.1 = k
  · rw [if_pos hk]
    exact (entry_unique h hm hp hk).symm
  · rw [if_neg hk]
    rfl

lemma resetMap1_38 : resetMap1 (utf16 "38") = none := by decide

lemma resetMap1_48 : resetMap1 (utf16 "48") = none := by decide

lemma processAnsiCode_active_noop {a : ActiveMap} {c r : JStr} (i : Nat)
    (codes : List JStr) (h : keysNodup a) (hmap : resetMap1 c = some (some r))
    (hmem : (c, r) ∈ a) : processAnsiCode c i codes a = (i, a) := by
  have h38 : c ≠ utf16 "38" := by
    intro he; rw [he, resetMap1_38] at hmap; exact Option.noConfusion hmap
  have h48 : c ≠ utf16 "48" := by
    intro he; rw [he, resetMap1_48] at hmap; exact Option.noConfusion hmap
  simp only [processAnsiCode, if_neg h38, if_neg h48]
  unfold applyResetMap1
  rw [hmap]
  dsimp only
  rw [mapSet_mem_self h hmem]

lemma dropLast_escTok (cs : JStr) : (((escTok cs).drop 2).dropLast) = cs := by
  unfold escTok
  simp

lemma arrProcessTok_dup_last (st : ArrSt) (cs : JStr)
    (h0 : headCode cs ≠ utf16 "0")
    (hlast : st.preArr.getLast? = some cs)
    (hsuf : st.sufArr.getLast? ≠ some cs) :
    arrProcessTok (escTok cs) st = { st with oneTime := st.oneTime ++ escTok cs } := by
  unfold arrProcessTok
  rw [dropLast_escTok]
  rw [if_neg h0]
  have hpop : arrPopOrPass (escTok cs) cs st =
      { st with oneTime := st.oneTime ++ escTok cs } := by
    unfold arrPopOrPass
    rw [if_neg hsuf]
  rcases resetMap2 (headCode cs) with _ | (_ | rc)
  · exact hpop
  · exact hpop
  · dsimp only
    rw [if_neg (fun hne => hne hlast)]
    exact hpop

lemma lowerUnit_hex (c : Nat) : isHexDigitB (lowerUnit c) = isHexDigitB c := by
  unfold lowerUnit isHexDigitB
  split
  · rename_i h
    rw [Bool.eq_iff_iff]
    simp only [Bool.or_eq_true, Bool.and_eq_true, decide_eq_true_eq]
    omega
  · rfl

lemma hexVal_lower (c : Nat) : hexVal (lowerUnit c) = hexVal c := by
  unfold lowerUnit hexVal
  split
  · rename_i h
    split_ifs <;> omega
  · rfl

lemma validHexB_lower (s : JStr) : validHexB (lowerAscii s) = validHexB s := by
  have hall : ∀ l : JStr, (l.map lowerUnit).all isHexDigitB = l.all isHexDigitB := by
    intro l
    induction l with
    | nil => rfl
    | cons c rest ih => simp only [List.map_cons, List.all_cons, lowerUnit_hex, ih]
  unfold validHexB lowerAscii
  rw [hall, List.length_map]

/-! Claim theorems. -/

/-- C1 counterexample: the claim fails as stated. On the empty string the
array-based splitWithAnsiContext returns `['']` of length 1, not 0; the
Map-based variant drops newline characters entirely and splits one
surrogate pair into two elements. -/
theorem c1_counterexample :
    (splitWithAnsiContextArray (utf16 "")).length = 1 ∧ visibleCount (utf16 "") = 0 ∧
    splitWithAnsiContextMap (utf16 "a\nb") = [utf16 "a", utf16 "b"] ∧
    (splitWithAnsiContextMap (utf16 "a\nb")).flatten ≠ utf16 "a\nb" ∧
    (splitWithAnsiContextMap (utf16 "😀")).length = 2 ∧ visibleCount (utf16 "😀") = 1 := by
  decide

/-- C1 amended: for every escape-free string, the array-based
splitWithAnsiContext satisfies the claim whenever the input is nonempty
(newlines and surrogate pairs included), and the Map-based variant
satisfies it whenever the input has no line terminators and no
surrogate units. -/
theorem c1_amended (s : JStr) (hesc : 27 ∉ s) :
    (s ≠ [] → (splitWithAnsiContextArray s).length = visibleCount s ∧
      (splitWithAnsiContextArray s).flatten = s) ∧
    ((∀ c ∈ s, isLineTermB c = false) → (∀ c ∈ s, isSurrB c = false) →
      (splitWithAnsiContextMap s).length = visibleCount s ∧
      (splitWithAnsiContextMap s).flatten = s) := by
  constructor
  · intro hne
    have harr : splitWithAnsiContextArray s = arrayFrom s := by
      unfold splitWithAnsiContextArray arrGo
      rw [if_neg hne]
      exact arrGoF_plain s.length s le_rfl hesc
    rw [harr]
    exact ⟨rfl, arrayFrom_flatten s⟩
  · intro hlt hsurr
    have hmap : splitWithAnsiContextMap s = s.map (fun c => [c]) := by
      unfold splitWithAnsiContextMap tokenizeMap
      rw [tokenizeMapF_plain s.length s le_rfl hesc hlt]
      exact splitMapGo_singletons s
    have hvc : visibleCount s = s.length := by
      unfold visibleCount
      rw [arrayFrom_no_high s (fun c hc => ?_)]
      · simp
      · have := hsurr c hc
        simp only [isSurrB, Bool.or_eq_false_iff] at this
        exact this.1
    rw [hmap, hvc]
    exact ⟨by simp, flatten_singletons s⟩

/-- C1 witness: the amended theorem applied to the concrete escape-free
string `hi`. -/
theorem c1_amended_witness :
    (splitWithAnsiContextArray (utf16 "hi")).length = visibleCount (utf16 "hi") ∧
    (splitWithAnsiContextMap (utf16 "hi")).flatten = utf16 "hi" :=
  ⟨((c1_amended (utf16 "hi") (by decide)).1 (by decide)).1,
    ((c1_amended (utf16 "hi") (by decide)).2 (by decide) (by decide)).2⟩

/-- C2: both splitWithAnsiContext variants terminate on every input and
process it to the end: the array variant produces exactly one element per
visible character of the scan (and `['']` on the empty string), the Map
variant one element per non-escape token; malformed escape material (a
lone ESC, an unterminated `\x1b[31`, non-numeric codes as in
`\x1b[abcm`) is passed through literally, and an unknown but well-formed
code is dropped by the Map variant and passed through once by the array
variant, never aborting the remainder. -/
theorem c2_malformed_safety :
    (∀ s : JStr, s ≠ [] →
      (splitWithAnsiContextArray s).length = (visibleChars s).length) ∧
    splitWithAnsiContextArray [] = [[]] ∧
    (∀ s : JStr, (splitWithAnsiContextMap s).length =
      (tokenizeMap s).countP (fun t => decide (¬ t.take 2 = [27, 91]))) ∧
    (splitWithAnsiContextArray (utf16 "foo\x1b[31")).flatten = utf16 "foo\x1b[31" ∧
    (splitWithAnsiContextMap (utf16 "foo\x1b[31")).flatten = utf16 "foo\x1b[31" ∧
    (splitWithAnsiContextArray (utf16 "Text with \x1b[abcm malformed")).flatten =
      utf16 "Text with \x1b[abcm malformed" ∧
    splitWithAnsiContextMap (utf16 "a\x1b[58mb") = [utf16 "a", utf16 "b"] ∧
    splitWithAnsiContextArray (utf16 "\x1b[58mX") = [utf16 "\x1b[58mX"] := by
  refine ⟨?_, rfl, ?_, by decide, by decide, by decide, by decide, by decide⟩
  · intro s hne
    unfold splitWithAnsiContextArray arrGo visibleChars
    rw [if_neg hne]
    exact arrGoF_length s.length s arrInit
  · intro s
    unfold splitWithAnsiContextMap
    exact splitMapGo_length (tokenizeMap s) []

/-- C2 witness: the length part of the safety theorem applied to a
concrete string ending in an unterminated escape sequence. -/
theorem c2_malformed_safety_witness :
    (splitWithAnsiContextArray (utf16 "foo\x1b[31")).length =
      (visibleChars (utf16 "foo\x1b[31")).length :=
  c2_malformed_safety.1 (utf16 "foo\x1b[31") (by decide)

/-- C3 counterexample: scanning the incomplete extended sequence
`\x1b[38;5m` does not leave the active context unchanged: the Map-based
variant records the blink entry `('5', '25')` and styles the following
character with it, and the array-based variant records the incomplete
sequence `38;5` itself as an active entry. -/
theorem c3_counterexample :
    splitWithAnsiContextMap (utf16 "\x1b[38;5mX") = [utf16 "\x1b[5mX\x1b[25m"] ∧
    splitWithAnsiContextMap (utf16 "\x1b[38;5mX") ≠ [utf16 "X"] ∧
    processCodesMap [utf16 "38", utf16 "5"] [] = [(utf16 "5", utf16 "25")] ∧
    splitWithAnsiContextArray (utf16 "\x1b[38;5mX") = [utf16 "\x1b[38;5mX\x1b[39m"] := by
  decide

/-- C3 amended: complete extended color sequences are recorded as one
compound entry with the full joined code string as key and reset 39/49
(in both variants); the leading 38/48 alone is never added and never an
error, but an incomplete extended sequence is not a no-op in general: the
Map variant processes the leftover components individually (`38;5` adds
the blink entry, `38;2;31` adds the red entry) and the array variant
records the incomplete sequence itself. -/
theorem c3_amended :
    (∀ (a : ActiveMap) (n : JStr), processCodesMap [utf16 "38", utf16 "5", n] a =
      mapSet a (utf16 "38" ++ utf16 ";5;" ++ n) (utf16 "39")) ∧
    (∀ (a : ActiveMap) (n : JStr), processCodesMap [utf16 "48", utf16 "5", n] a =
      mapSet a (utf16 "48" ++ utf16 ";5;" ++ n) (utf16 "49")) ∧
    (∀ (a : ActiveMap) (r g b : JStr), processCodesMap [utf16 "38", utf16 "2", r, g, b] a =
      mapSet a (utf16 "38" ++ utf16 ";2;" ++ joinSemi [r, g, b]) (utf16 "39")) ∧
    (∀ (a : ActiveMap) (r g b : JStr), processCodesMap [utf16 "48", utf16 "2", r, g, b] a =
      mapSet a (utf16 "48" ++ utf16 ";2;" ++ joinSemi [r, g, b]) (utf16 "49")) ∧
    (∀ a : ActiveMap, processCodesMap [utf16 "38"] a = a) ∧
    (∀ a : ActiveMap, processCodesMap [utf16 "38", utf16 "2"] a = a) ∧
    (∀ a : ActiveMap, processCodesMap [utf16 "38", utf16 "5"] a =
      mapSet a (utf16 "5") (utf16 "25")) ∧
    processCodesMap [utf16 "38", utf16 "2", utf16 "31"] [] = [(utf16 "31", utf16 "39")] ∧
    splitWithAnsiContextArray (utf16 "\x1b[38;5;196mX") =
      [utf16 "\x1b[38;5;196mX\x1b[39m"] ∧
    splitWithAnsiContextArray (utf16 "\x1b[48;2;1;2;3mX") =
      [utf16 "\x1b[48;2;1;2;3mX\x1b[49m"] ∧
    splitWithAnsiContextArray (utf16 "\x1b[38;5mX") = [utf16 "\x1b[38;5mX\x1b[39m"] := by
  refine ⟨fun a n => rfl, fun a n => rfl, fun a r g b => rfl, fun a r g b => rfl,
    fun a => rfl, fun a => rfl, fun a => rfl, by decide, by decide, by decide, by decide⟩

/-- C4 counterexample: in the array-based variant only the most recent
push is checked, so re-applying bold after red pushes a duplicate `1`
into the active context and the style is applied twice to the character. -/
theorem c4_counterexample :
    (arrProcessTok (utf16 "\x1b[1m") (arrProcessTok (utf16 "\x1b[31m")
      (arrProcessTok (utf16 "\x1b[1m") arrInit))).preArr =
      [utf16 "1", utf16 "31", utf16 "1"] ∧
    ¬ (arrProcessTok (utf16 "\x1b[1m") (arrProcessTok (utf16 "\x1b[31m")
      (arrProcessTok (utf16 "\x1b[1m") arrInit))).preArr.Nodup ∧
    splitWithAnsiContextArray (utf16 "\x1b[1m\x1b[31m\x1b[1mX") =
      [utf16 "\x1b[1;31;1mX\x1b[22;39;22m"] := by
  decide

/-- C4 amended: the no-duplicate invariant holds for the Map-based
variant: every processAnsiCode step preserves key-uniqueness of the
active map, and re-applying a style code that is already active with its
reset is a no-op. In the array-based variant only an immediately repeated
code sequence is a context no-op (the token goes to the one-time
passthrough); a duplicate that is not the most recent push is pushed
again. -/
theorem c4_amended :
    (∀ (code : JStr) (i : Nat) (codes : List JStr) (a : ActiveMap), keysNodup a →
      keysNodup (processAnsiCode code i codes a).2) ∧
    (∀ (a : ActiveMap) (c r : JStr) (i : Nat) (codes : List JStr), keysNodup a →
      resetMap1 c = some (some r) → (c, r) ∈ a →
      processAnsiCode c i codes a = (i, a)) ∧
    (∀ (st : ArrSt) (cs : JStr), headCode cs ≠ utf16 "0" →
      st.preArr.getLast? = some cs → st.sufArr.getLast? ≠ some cs →
      arrProcessTok (escTok cs) st = { st with oneTime := st.oneTime ++ escTok cs }) := by
  refine ⟨?_, ?_, ?_⟩
  · intro code i codes a h
    exact keysNodup_processAnsiCode code i codes h
  · intro a c r i codes h hm hmem
    exact processAnsiCode_active_noop i codes h hm hmem
  · intro st cs h0 hl hs
    exact arrProcessTok_dup_last st cs h0 hl hs

/-- C4 witness: the amended theorem applied at concrete active contexts:
key-uniqueness is preserved, re-applying an active red is a no-op, and an
adjacent duplicate in the array variant only grows the one-time
passthrough. -/
theorem c4_amended_witness :
    keysNodup (processAnsiCode (utf16 "31") 0 [utf16 "31"]
      [(utf16 "1", utf16 "22")]).2 ∧
    processAnsiCode (utf16 "31") 0 [utf16 "31"] [(utf16 "31", utf16 "39")] =
      (0, [(utf16 "31", utf16 "39")]) ∧
    arrProcessTok (escTok (utf16 "1"))
      { preArr := [utf16 "1"], sufArr := [utf16 "22"], oneTime := [],
        curPre := utf16 "\x1b[1m", curSuf := utf16 "\x1b[22m" } =
      { preArr := [utf16 "1"], sufArr := [utf16 "22"], oneTime := [] ++ escTok (utf16 "1"),
        curPre := utf16 "\x1b[1m", curSuf := utf16 "\x1b[22m" } :=
  ⟨c4_amended.1 (utf16 "31") 0 [utf16 "31"] _ (by decide),
    c4_amended.2.1 _ (utf16 "31") (utf16 "39") 0 [utf16 "31"]
      (by decide) (by decide) (by decide),
    c4_amended.2.2 _ (utf16 "1") (by decide) (by decide) (by decide)⟩

lemma splitMapGo_tok0 (a : ActiveMap) (toks : List JStr) :
    splitMapGo ([27, 91, 48, 109] :: toks) a = splitMapGo toks [] := by
  simp only [splitMapGo]
  rw [if_pos (show List.take 2 [27, 91, 48, 109] = [27, 91] by decide)]
  congr 1

/-- C5: SGR code 0 performs a full reset in both variants, for every
prior context: processAnsiCode on `0` empties the Map-based context; in
both variants every visible character after a `\x1b[0m` token and before
any further escape token is emitted bare (the array variant additionally
passes the reset token itself through once, attached to the first
following character). -/
theorem c5_full_reset :
    (∀ (a : ActiveMap) (i : Nat) (codes : List JStr),
      processAnsiCode (utf16 "0") i codes a = (i, [])) ∧
    (∀ (a : ActiveMap) (t : JStr), 27 ∉ t → (∀ c ∈ t, isLineTermB c = false) →
      splitMapGo (tokenizeMap (utf16 "\x1b[0m" ++ t)) a = t.map (fun c => [c])) ∧
    (∀ (st : ArrSt) (t : JStr), 27 ∉ t →
      arrGo (utf16 "\x1b[0m" ++ t) st =
        (arrayFrom t).modifyHead (fun ch => st.oneTime ++ utf16 "\x1b[0m" ++ ch)) := by
  refine ⟨fun a i codes => rfl, ?_, ?_⟩
  · intro a t hesc hlt
    have ht0 : utf16 "\x1b[0m" ++ t = 27 :: 91 :: 48 :: 109 :: t := rfl
    rw [ht0]
    unfold tokenizeMap
    have hl : ((27 : Nat) :: 91 :: 48 :: 109 :: t).length = t.length + 3 + 1 := by
      simp
    rw [hl]
    simp only [tokenizeMapF, matchSGR_tok0]
    rw [tokenizeMapF_plain (t.length + 3) t (by omega) hesc hlt]
    rw [splitMapGo_tok0]
    exact splitMapGo_singletons t
  · intro st t hesc
    have ht0 : utf16 "\x1b[0m" ++ t = 27 :: 91 :: 48 :: 109 :: t := rfl
    rw [ht0]
    unfold arrGo
    have hl : ((27 : Nat) :: 91 :: 48 :: 109 :: t).length = t.length + 3 + 1 := by
      simp
    rw [hl]
    simp only [arrGoF, matchSGR_tok0]
    have hst : arrProcessTok [27, 91, 48, 109] st =
        { preArr := [], sufArr := [], oneTime := st.oneTime ++ [27, 91, 48, 109],
          curPre := [], curSuf := [] } := rfl
    rw [hst]
    rw [arrGoF_after_clear (t.length + 3) t _ (by omega) hesc rfl rfl]
    rfl

/-- C5 witness: the full-reset theorem applied to a concrete context and
the concrete tail `ab`. -/
theorem c5_full_reset_witness :
    splitMapGo (tokenizeMap (utf16 "\x1b[0m" ++ utf16 "ab")) [(utf16 "1", utf16 "22")] =
      (utf16 "ab").map (fun c => [c]) ∧
    arrGo (utf16 "\x1b[0m" ++ utf16 "ab")
      { preArr := [utf16 "1"], sufArr := [utf16 "22"], oneTime := [],
        curPre := utf16 "\x1b[1m", curSuf := utf16 "\x1b[22m" } =
      (arrayFrom (utf16 "ab")).modifyHead (fun ch => [] ++ utf16 "\x1b[0m" ++ ch) :=
  ⟨c5_full_reset.2.1 [(utf16 "1", utf16 "22")] (utf16 "ab") (by decide) (by decide),
    c5_full_reset.2.2 _ (utf16 "ab") (by decide)⟩

/-- C6: the two splitWithAnsiContext implementations are extensionally
different: on `\x1b[1m\x1b[31mA` the Map-based variant emits the two
apply codes as separate tokens with deduplicated resets, while the
array-based variant merges them into single combined tokens. -/
theorem c6_variants_differ :
    splitWithAnsiContextMap (utf16 "\x1b[1m\x1b[31mA") =
      [utf16 "\x1b[1m\x1b[31mA\x1b[22m\x1b[39m"] ∧
    splitWithAnsiContextArray (utf16 "\x1b[1m\x1b[31mA") =
      [utf16 "\x1b[1;31mA\x1b[22;39m"] ∧
    splitWithAnsiContextMap (utf16 "\x1b[1m\x1b[31mA") ≠
      splitWithAnsiContextArray (utf16 "\x1b[1m\x1b[31mA") := by
  decide

/-- C7 counterexample: with 7 content rows and a viewport height of 5,
assigning 10 to scroll yields offset 6 — outside the claimed range
[0, contentRows − height] = [0, 2] — and assigning the negative value −2
at offset 3 yields 1, not 0; both behaviors are the ones pinned by the
repository's scroll tests. -/
theorem c7_counterexample :
    scrollSet 7 5 0 10 = 6 ∧ ¬ scrollSet 7 5 0 10 ≤ 7 - 5 ∧
    scrollSet 7 5 3 (-2) = 1 ∧ scrollSet 7 5 3 (-2) ≠ 0 := by
  decide

/-- C7 amended: after any assignment the scroll offset lies in
[0, max(0, contentRows − 1)]: a non-negative value is an absolute target
clamped to that range and a negative value is a relative delta from the
current offset clamped below at 0; the three behaviors fixed by the
repository's scroll tests are reproduced. -/
theorem c7_amended :
    (∀ (rows h cur : Nat) (v : Int), scrollSet rows h cur v ≤ rows - 1) ∧
    (∀ (rows h cur : Nat) (v : Int), 0 ≤ v →
      scrollSet rows h cur v = min v.toNat (rows - 1)) ∧
    (∀ (rows h cur : Nat) (v : Int), v < 0 →
      scrollSet rows h cur v = min ((cur : Int) + v).toNat (rows - 1)) ∧
    scrollSet 7 5 0 10 = 6 ∧ scrollSet 7 5 0 3 = 3 ∧
    scrollSet 7 5 3 (-2) = 1 ∧ scrollSet 10 5 0 2 = 2 := by
  refine ⟨?_, ?_, ?_, by decide, by decide, by decide, by decide⟩
  · intro rows h cur v
    unfold scrollSet
    dsimp only
    split
    · exact Nat.min_le_right _ _
    · exact Nat.min_le_right _ _
  · intro rows h cur v hv
    unfold scrollSet
    rw [if_pos hv]
  · intro rows h cur v hv
    unfold scrollSet
    rw [if_neg (by omega)]

/-- C7 witness: the absolute branch of the amended theorem at the
concrete test input. -/
theorem c7_amended_witness : scrollSet 7 5 0 10 = min (Int.toNat 10) (7 - 1) :=
  c7_amended.2.1 7 5 0 10 (by decide)

/-- C8: when the NO_COLOR flag is truthy, wrapWithAnsi returns its text
argument unchanged for every list of style codes, so every xterm chain
formatter returns its space-joined arguments with no escape sequences
added. -/
theorem c8_no_color :
    (∀ (codes : List StyleCode) (text : JStr), wrapWithAnsi true codes text = text) ∧
    (∀ (codes : List StyleCode) (args : List JStr),
      xtermFormat true codes args = joinSpace args) :=
  ⟨fun _ _ => rfl, fun _ _ => rfl⟩

/-- C10: every path of wrapWithAnsi with the NO_COLOR flag unset agrees
with the general formula emitting the apply tokens in list order before
the text and the reset tokens in exactly reversed list order after it;
the empty list returns the text unchanged and the single-code fast path
coincides with the general path on a one-element list. -/
theorem c10_wrap_paths :
    (∀ (codes : List StyleCode) (text : JStr),
      wrapWithAnsi false codes text = wrapGeneral codes text) ∧
    (∀ text : JStr, wrapWithAnsi false [] text = text) ∧
    (∀ (c : StyleCode) (text : JStr),
      wrapWithAnsi false [c] text = wrapGeneral [c] text) := by
  have hgen : ∀ (codes : List StyleCode) (text : JStr),
      wrapWithAnsi false codes text = wrapGeneral codes text := by
    intro codes text
    cases codes with
    | nil => simp [wrapWithAnsi, wrapGeneral, endTokens, startTok]
    | cons c cs =>
      cases cs with
      | nil => simp [wrapWithAnsi, wrapGeneral, endTokens, startTok]
      | cons c2 cs2 => rfl
  exact ⟨hgen, fun text => rfl, fun c text => hgen [c] text⟩

/-- C9: rgbCode returns normally exactly when all three components are
numbers (building the `38;2;r;g;b` / `48;2;r;g;b` pair with reset 39/49)
and otherwise raises the descriptive type error; hexToRgb returns
normally exactly when its argument, after stripping an optional leading
`#`, is 3 or 6 hex digits, duplicating each digit of a 3-digit color, and
otherwise raises the descriptive format error. -/
theorem c9_color_validation :
    (∀ (t : ColorTarget) (r g b : JSVal),
      (rgbCode t r g b).isOk = (isNumB r && isNumB g && isNumB b)) ∧
    (∀ rn gn bn : Nat, rgbCode .fg (.num rn) (.num gn) (.num bn) =
      .ok (utf16 "38" ++ utf16 ";2;" ++ decStr rn ++ utf16 ";" ++ decStr gn ++
        utf16 ";" ++ decStr bn, utf16 "39")) ∧
    (∀ rn gn bn : Nat, rgbCode .bg (.num rn) (.num gn) (.num bn) =
      .ok (utf16 "48" ++ utf16 ";2;" ++ decStr rn ++ utf16 ";" ++ decStr gn ++
        utf16 ";" ++ decStr bn, utf16 "49")) ∧
    rgbCode .fg (.str (utf16 "not")) (.str (utf16 "a")) (.str (utf16 "number")) =
      .error (utf16 "RGB values must be numbers, received: r=string, g=string, b=string") ∧
    (∀ s : JStr, (hexToRgb s).isOk = validHexB (stripHash s)) ∧
    (∀ a b c : Nat, isHexDigitB a = true → isHexDigitB b = true → isHexDigitB c = true →
      hexToRgb (35 :: [a, b, c]) = .ok (17 * hexVal a, 17 * hexVal b, 17 * hexVal c)) ∧
    (∀ a b c d e f : Nat, [a, b, c, d, e, f].all isHexDigitB = true →
      hexToRgb [a, b, c, d, e, f] =
        .ok (16 * hexVal a + hexVal b, 16 * hexVal c + hexVal d,
          16 * hexVal e + hexVal f)) ∧
    hexToRgb (utf16 "not-a-hex") =
      .error (utf16 "Invalid hex color format: \"not-a-hex\". Expected 3 or 6 hex digits.") := by
  refine ⟨?_, fun rn gn bn => rfl, fun rn gn bn => rfl, rfl, ?_, ?_, ?_, rfl⟩
  · intro t r g b
    cases r <;> cases g <;> cases b <;> cases t <;> rfl
  · intro s
    unfold hexToRgb
    dsimp only
    cases hb : validHexB (stripHash s) with
    | false =>
      rw [if_neg (by rw [validHexB_lower, hb]; exact Bool.false_ne_true)]
      rfl
    | true =>
      rw [if_pos (by rw [validHexB_lower]; exact hb)]
      split <;> rfl
  · intro a b c ha hb hc
    unfold hexToRgb
    dsimp only
    have hclean : lowerAscii (stripHash (35 :: [a, b, c])) =
        [lowerUnit a, lowerUnit b, lowerUnit c] := rfl
    rw [hclean]
    rw [if_pos (by simp [validHexB, List.all_cons, lowerUnit_hex, ha, hb, hc])]
    rw [if_pos (by rfl)]
    simp only [Except.ok.injEq, Prod.mk.injEq, List.getD, List.get?_cons_zero,
      List.get?_cons_succ, Option.getD_some]
    simp only [parseHexStr, List.foldl, hexVal_lower]
    omega
  · intro a b c d e f h
    simp only [List.all_cons, List.all_nil, Bool.and_eq_true, Bool.and_true] at h
    obtain ⟨ha, hb, hc, hd, he, hf⟩ := h
    unfold hexToRgb
    dsimp only
    have ha35 : a ≠ 35 := by
      intro h35
      rw [h35] at ha
      simp [isHexDigitB] at ha
    have hclean : lowerAscii (stripHash [a, b, c, d, e, f]) =
        [lowerUnit a, lowerUnit b, lowerUnit c, lowerUnit d, lowerUnit e,
          lowerUnit f] := by
      simp only [stripHash]
      rw [if_neg ha35]
      rfl
    rw [hclean]
    rw [if_pos (by simp [validHexB, List.all_cons, lowerUnit_hex, ha, hb, hc, hd, he, hf])]
    rw [if_neg (by simp)]
    simp only [Except.ok.injEq, Prod.mk.injEq]
    simp only [parseHexStr, List.foldl, List.take, List.drop, hexVal_lower]
    omega

/-- C9 witness: the 3-digit branch applied to the concrete input `#F50`,
reproducing the spec example (255, 85, 0). -/
theorem c9_color_validation_witness :
    hexToRgb (35 :: [70, 53, 48]) =
      .ok (17 * hexVal 70, 17 * hexVal 53, 17 * hexVal 48) :=
  c9_color_validation.2.2.2.2.2.1 70 53 48 (by decide) (by decide) (by decide)
